import Mathlib

/-!
Shallow embedding of `src/pwrite.rs` (the `Pwrite` trait of the scroll crate).

The trait's `pwrite_with` measures the buffer's length under the given context,
compares `offset >= len` under the offset type's partial order, and on success
hands the mutable sub-view `&mut self[offset..]` together with the same context
to the value's `try_into_ctx`, returning that routine's result verbatim.
Mutation is embedded by explicit state passing: the conversion routine receives
the sub-view and returns its result together with the sub-view's new contents,
which are written back into the buffer.
-/

namespace Scroll

/-- Modelled from the spec: the repository's error type (module `error`, not under
`src/`). The spec requires a tagged outcome with at least a bad-offset variant
carrying the offending offset, and room for conversion-specific failures. -/
inductive Error (I : Type) where
  | BadOffset : I → Error I
  | Custom : Error I
deriving DecidableEq

/-- Rust's `a >= b` on a type that is only partially ordered:
`matches!(a.partial_cmp(&b), Some(Greater) | Some(Equal))`. -/
def pge {I : Type} (pcmp : I → I → Option Ordering) (a b : I) : Bool :=
  match pcmp a b with
  | some Ordering.gt => true
  | some Ordering.eq => true
  | _ => false

/-- The capabilities a receiver of `Pwrite<Ctx, E, I>` must provide
(`Index<I> + IndexMut<RangeFrom<I>> + MeasureWith<Ctx>` with
`I: Add + Copy + PartialOrd`, `Ctx: Copy + Default + Debug`,
`E: From<error::Error<I>>`), embedded as explicit functions.
`index_from` is the sub-view `self[offset..]`; `write_back` reinstalls a
mutated sub-view, embedding mutation through `&mut self[offset..]`.
`add` records the (unused by `pwrite_with`) `I: Add` bound. -/
structure PwriteModel (Buf Ctx I E Sub : Type) where
  pcmp : I → I → Option Ordering
  add : I → I → I
  default_ctx : Ctx
  measure_with : Buf → Ctx → I
  index_from : Buf → I → Sub
  write_back : Buf → I → Sub → Buf
  fromErr : Error I → E

/-- Embedding of `Pwrite::pwrite_with` (src/pwrite.rs lines 49-56):
measure the length under `ctx`, return `Err(Error::BadOffset(offset).into())`
when `offset >= len`, else run `n.try_into_ctx(&mut self[offset..], ctx)`. -/
def pwrite_with {Buf Ctx I E Sub V : Type} (M : PwriteModel Buf Ctx I E Sub)
    (try_into_ctx : V → Sub → Ctx → Except E Unit × Sub)
    (buf : Buf) (n : V) (offset : I) (ctx : Ctx) : Except E Unit × Buf :=
  let len := M.measure_with buf ctx
  if pge M.pcmp offset len then
    (Except.error (M.fromErr (Error.BadOffset offset)), buf)
  else
    let dst := M.index_from buf offset
    let res := try_into_ctx n dst ctx
    (res.1, M.write_back buf offset res.2)

/-- Embedding of `Pwrite::pwrite` (src/pwrite.rs lines 39-41):
delegates to `pwrite_with` with `Ctx::default()`. -/
def pwrite {Buf Ctx I E Sub V : Type} (M : PwriteModel Buf Ctx I E Sub)
    (try_into_ctx : V → Sub → Ctx → Except E Unit × Sub)
    (buf : Buf) (n : V) (offset : I) : Except E Unit × Buf :=
  pwrite_with M try_into_ctx buf n offset M.default_ctx

/-- Rust slice range indexing `&mut buf[offset..]` for a byte buffer:
defined (returns the tail from `offset`) exactly when `offset ≤ buf.length`,
and a panic (`none`) otherwise. -/
def sliceIndexFrom (buf : List Nat) (offset : Nat) : Option (List Nat) :=
  if offset ≤ buf.length then some (buf.drop offset) else none

/-- Reinstalling the mutated contents of `&mut buf[offset..]` into the buffer. -/
def byteWriteBack (buf : List Nat) (offset : Nat) (dst : List Nat) : List Nat :=
  buf.take offset ++ dst

/-- `pwrite_with` instantiated at a byte buffer (`[u8]`-like, bytes as `Nat`)
with `I = usize = Nat`, keeping the measuring function and the conversion
routine generic, and making the possible panic of the range indexing
`&mut self[offset..]` explicit: `none` is a panic of the indexing step. -/
def pwrite_with_bytes {Ctx E V : Type} (fromErr : Error Nat → E)
    (measure_with : List Nat → Ctx → Nat)
    (try_into_ctx : V → List Nat → Ctx → Except E Unit × List Nat)
    (buf : List Nat) (n : V) (offset : Nat) (ctx : Ctx) :
    Option (Except E Unit × List Nat) :=
  let len := measure_with buf ctx
  if offset ≥ len then
    some (Except.error (fromErr (Error.BadOffset offset)), buf)
  else
    match sliceIndexFrom buf offset with
    | none => none
    | some dst =>
      let res := try_into_ctx n dst ctx
      some (res.1, byteWriteBack buf offset res.2)

/-- `pwrite` at a byte buffer: delegates to `pwrite_with_bytes` with the
default context. -/
def pwrite_bytes {Ctx E V : Type} (defaultCtx : Ctx) (fromErr : Error Nat → E)
    (measure_with : List Nat → Ctx → Nat)
    (try_into_ctx : V → List Nat → Ctx → Except E Unit × List Nat)
    (buf : List Nat) (n : V) (offset : Nat) :
    Option (Except E Unit × List Nat) :=
  pwrite_with_bytes fromErr measure_with try_into_ctx buf n offset defaultCtx

/-- Modelled from the spec: the endianness context (`scroll::Endian`, crate
module not under `src/`) — an opaque, copyable configuration value with a
well-defined default; the spec's scenarios use its little-endian value. -/
inductive Endian where
  | little
  | big
deriving DecidableEq

/-- The four little-endian bytes of a 32-bit integer. -/
def u32LEBytes (v : Nat) : List Nat :=
  [v % 256, v / 256 % 256, v / 65536 % 256, v / 16777216 % 256]

/-- Modelled from the spec: `MeasureWith` for byte slices (crate module `ctx`,
not under `src/`) — the Length-Under-Context capability of a plain byte slice
reports its physical length, for any context. -/
def sliceMeasureWith (buf : List Nat) (_ctx : Endian) : Nat := buf.length

/-- Modelled from the spec: the Value Conversion capability of a 32-bit integer
under an endian context (`TryIntoCtx` for `u32`, crate module `ctx`, not under
`src/`): encode the four bytes at the front of the sub-view in the order the
context dictates, rejecting with a conversion-specific error when fewer than
four bytes remain. -/
def tryIntoCtxU32 (v : Nat) (dst : List Nat) (ctx : Endian) :
    Except (Error Nat) Unit × List Nat :=
  if 4 ≤ dst.length then
    match ctx with
    | Endian.little => (Except.ok (), u32LEBytes v ++ dst.drop 4)
    | Endian.big => (Except.ok (), (u32LEBytes v).reverse ++ dst.drop 4)
  else (Except.error Error.Custom, dst)

/-- Modelled from the spec: the mirror-image read operation for a 32-bit
integer (`Pread::pread_with`, not under `src/`): decode the four bytes at
`[offset .. offset+4)` under the endian context. -/
def preadWithU32 (buf : List Nat) (offset : Nat) (ctx : Endian) : Option Nat :=
  match buf.drop offset with
  | b0 :: b1 :: b2 :: b3 :: _ =>
    match ctx with
    | Endian.little => some (b0 + 256 * b1 + 65536 * b2 + 16777216 * b3)
    | Endian.big => some (b3 + 256 * b2 + 65536 * b1 + 16777216 * b0)
  | _ => none

/-- `usize`'s total order as a `partial_cmp`. -/
def natPcmp (a b : Nat) : Option Ordering := some (compare a b)

/-- The generic model instantiated at a byte buffer with `usize` offsets,
slice measuring, slice sub-views, and the identity error conversion. -/
def byteModel : PwriteModel (List Nat) Endian Nat (Error Nat) (List Nat) :=
  ⟨natPcmp, Nat.add, Endian.little, fun buf _ => buf.length,
   fun buf offset => buf.drop offset, byteWriteBack, fun e => e⟩

/-- A genuinely partial order on offsets: componentwise comparison of pairs
(`partial_cmp` of a product order); incomparable pairs give `none`. -/
def prodPcmp (a b : Nat × Nat) : Option Ordering :=
  if a.1 = b.1 ∧ a.2 = b.2 then some Ordering.eq
  else if a.1 ≤ b.1 ∧ a.2 ≤ b.2 then some Ordering.lt
  else if b.1 ≤ a.1 ∧ b.2 ≤ a.2 then some Ordering.gt
  else none

/-- A model whose offset type is only partially ordered: offsets are pairs,
the buffer is a byte list indexed by the first component, and the measured
length is the pair `(physical length, 0)`. -/
def pairModel : PwriteModel (List Nat) Unit (Nat × Nat) (Error (Nat × Nat)) (List Nat) :=
  ⟨prodPcmp, fun a b => (a.1 + b.1, a.2 + b.2), (),
   fun buf _ => (buf.length, 0),
   fun buf offset => buf.drop offset.1,
   fun buf offset dst => buf.take offset.1 ++ dst,
   fun e => e⟩

/-- Reference definition written from the spec's words (§4.4,
Write-with-explicit-context): measure the buffer's length under the context,
fail with the bounds error carrying the offset when `offset >= length`,
otherwise invoke the Value Conversion capability with the sub-view
`buffer[offset..]` and the same context, and propagate its result verbatim. -/
def writeWithExplicitContext {Buf Ctx I E Sub V : Type}
    (M : PwriteModel Buf Ctx I E Sub)
    (conv : V → Sub → Ctx → Except E Unit × Sub)
    (buf : Buf) (n : V) (offset : I) (ctx : Ctx) : Except E Unit × Buf :=
  if pge M.pcmp offset (M.measure_with buf ctx) then
    (Except.error (M.fromErr (Error.BadOffset offset)), buf)
  else
    ((conv n (M.index_from buf offset) ctx).1,
     M.write_back buf offset (conv n (M.index_from buf offset) ctx).2)

theorem take_append_take {α : Type} (buf d : List α) (o : Nat) (h : o ≤ buf.length) :
    (buf.take o ++ d).take o = buf.take o := by
  have hl : (buf.take o).length = o := by
    simp [List.length_take, Nat.min_eq_left h]
  calc (buf.take o ++ d).take o
      = (buf.take o ++ d).take (buf.take o).length := by rw [hl]
    _ = buf.take o := List.take_left _ _

/-- C1 counterexample: a conversion routine may itself return the bad-offset
error value, so the operation can fail with Bad-offset(0) although the offset 0
is strictly below the measured length 4 — the claimed biconditional fails in
the right-to-left reading of "fails with a Bad-offset error iff o >= L". -/
theorem C1_counterexample :
    pwrite_with_bytes (fun e => e) (fun buf _ => buf.length)
        (fun (_ : Unit) dst (_ : Endian) => (Except.error (Error.BadOffset 0), dst))
        [0, 0, 0, 0] () 0 Endian.little
      = some (Except.error (Error.BadOffset 0), [0, 0, 0, 0])
    ∧ ¬ (0 ≥ (fun (buf : List Nat) (_ : Endian) => buf.length) [0, 0, 0, 0] Endian.little) :=
  ⟨rfl, by decide⟩

/-- C1 (amended): Bounds law — if `o >= L` the write fails with Bad-offset(o)
and the buffer is unchanged; if `o < L` (and the offset is physically
indexable) the conversion routine is invoked exactly once, on the sub-view
`buf[o..]` whose length is the container's physical length minus `o`, and the
operation's outcome is exactly that single invocation's result. A Bad-offset
failure for `o < L` can therefore only come from the conversion routine itself. -/
theorem C1_bounds_law {Ctx E V : Type} (fromErr : Error Nat → E)
    (measure_with : List Nat → Ctx → Nat)
    (tic : V → List Nat → Ctx → Except E Unit × List Nat)
    (buf : List Nat) (n : V) (offset : Nat) (ctx : Ctx) :
    (offset ≥ measure_with buf ctx →
        pwrite_with_bytes fromErr measure_with tic buf n offset ctx
          = some (Except.error (fromErr (Error.BadOffset offset)), buf))
    ∧ (offset < measure_with buf ctx → offset ≤ buf.length →
        (buf.drop offset).length = buf.length - offset
        ∧ pwrite_with_bytes fromErr measure_with tic buf n offset ctx
            = some ((tic n (buf.drop offset) ctx).1,
                    buf.take offset ++ (tic n (buf.drop offset) ctx).2)) := by
  constructor
  · intro h
    unfold pwrite_with_bytes
    simp [h]
  · intro h1 h2
    refine ⟨List.length_drop _ _, ?_⟩
    unfold pwrite_with_bytes
    simp [Nat.not_le.mpr h1, sliceIndexFrom, h2, byteWriteBack]

theorem C1_bounds_law_witness :
    pwrite_with_bytes (fun e => e) sliceMeasureWith tryIntoCtxU32
        [1, 2, 3, 4] 0xbeefbeef 7 Endian.little
      = some (Except.error (Error.BadOffset 7), [1, 2, 3, 4])
    ∧ pwrite_with_bytes (fun e => e) sliceMeasureWith tryIntoCtxU32
        [1, 2, 3, 4, 5] 0xbeefbeef 1 Endian.little
      = some ((tryIntoCtxU32 0xbeefbeef [2, 3, 4, 5] Endian.little).1,
              [1] ++ (tryIntoCtxU32 0xbeefbeef [2, 3, 4, 5] Endian.little).2) :=
  ⟨(C1_bounds_law (fun e => e) sliceMeasureWith tryIntoCtxU32
      [1, 2, 3, 4] 0xbeefbeef 7 Endian.little).1 (by decide),
   ((C1_bounds_law (fun e => e) sliceMeasureWith tryIntoCtxU32
      [1, 2, 3, 4, 5] 0xbeefbeef 1 Endian.little).2 (by decide) (by decide)).2⟩

/-- C2: Atomicity on bounds failure — whenever `offset >= len` holds under the
partial order, `pwrite_with` returns exactly the Bad-offset error carrying the
offset together with the untouched buffer, and the result does not depend on
the conversion routine or the value (of any type): the conversion routine is
never invoked and no sub-view is written back. -/
theorem C2_atomicity_on_bounds_failure {Buf Ctx I E Sub V W : Type}
    (M : PwriteModel Buf Ctx I E Sub)
    (tic : V → Sub → Ctx → Except E Unit × Sub)
    (tic2 : W → Sub → Ctx → Except E Unit × Sub)
    (buf : Buf) (n : V) (m : W) (offset : I) (ctx : Ctx)
    (h : pge M.pcmp offset (M.measure_with buf ctx) = true) :
    pwrite_with M tic buf n offset ctx
      = (Except.error (M.fromErr (Error.BadOffset offset)), buf)
    ∧ pwrite_with M tic2 buf m offset ctx = pwrite_with M tic buf n offset ctx := by
  unfold pwrite_with
  simp [h]

theorem C2_atomicity_witness :
    pwrite_with byteModel tryIntoCtxU32 [1, 2, 3, 4] 0xbeefbeef 4 Endian.little
      = (Except.error (Error.BadOffset 4), [1, 2, 3, 4]) :=
  (C2_atomicity_on_bounds_failure byteModel tryIntoCtxU32 tryIntoCtxU32
    [1, 2, 3, 4] 0xbeefbeef 0xbeefbeef 4 Endian.little (by decide)).1

/-- C3: Default-context equivalence — `pwrite` produces exactly the same result
and the same final buffer state as `pwrite_with` at the context's default value,
for every buffer, value and offset. -/
theorem C3_default_context_equiv {Buf Ctx I E Sub V : Type}
    (M : PwriteModel Buf Ctx I E Sub)
    (tic : V → Sub → Ctx → Except E Unit × Sub)
    (buf : Buf) (n : V) (offset : I) :
    pwrite M tic buf n offset = pwrite_with M tic buf n offset M.default_ctx := rfl

/-- C4: Verbatim result propagation — when the bounds check passes, the
operation's result component is exactly the result of the single call to the
conversion routine: errors pass through unchanged and successes pass through
unchanged. -/
theorem C4_verbatim_result {Buf Ctx I E Sub V : Type}
    (M : PwriteModel Buf Ctx I E Sub)
    (tic : V → Sub → Ctx → Except E Unit × Sub)
    (buf : Buf) (n : V) (offset : I) (ctx : Ctx)
    (h : pge M.pcmp offset (M.measure_with buf ctx) = false) :
    (pwrite_with M tic buf n offset ctx).1
      = (tic n (M.index_from buf offset) ctx).1 := by
  unfold pwrite_with
  simp [h]

theorem C4_verbatim_result_witness :
    (pwrite_with byteModel tryIntoCtxU32 [0, 0] 5 0 Endian.little).1
      = (tryIntoCtxU32 5 (byteModel.index_from [0, 0] 0) Endian.little).1 :=
  C4_verbatim_result byteModel tryIntoCtxU32 [0, 0] 5 0 Endian.little (by decide)

/-- C5: Sub-view shape — when the bounds check passes, the sub-view handed to
the conversion routine is exactly `buf[offset..]` (the tail from the offset to
the buffer's physical end), and the operation's outcome is exactly the
conversion routine's outcome on that sub-view: the operation performs no
value-specific length validation, so rejecting insufficient space is entirely
the conversion routine's doing. -/
theorem C5_subview_shape {Ctx E V : Type} (fromErr : Error Nat → E)
    (measure_with : List Nat → Ctx → Nat)
    (tic : V → List Nat → Ctx → Except E Unit × List Nat)
    (buf : List Nat) (n : V) (offset : Nat) (ctx : Ctx)
    (h1 : offset < measure_with buf ctx) (h2 : offset ≤ buf.length) :
    pwrite_with_bytes fromErr measure_with tic buf n offset ctx
      = some ((tic n (buf.drop offset) ctx).1,
              buf.take offset ++ (tic n (buf.drop offset) ctx).2) := by
  unfold pwrite_with_bytes
  simp [Nat.not_le.mpr h1, sliceIndexFrom, h2, byteWriteBack]

theorem C5_subview_shape_witness :
    pwrite_with_bytes (fun e => e) sliceMeasureWith tryIntoCtxU32
        [0, 0] 0xbeefbeef 0 Endian.little
      = some ((tryIntoCtxU32 0xbeefbeef ([0, 0].drop 0) Endian.little).1,
              [0, 0].take 0 ++ (tryIntoCtxU32 0xbeefbeef ([0, 0].drop 0) Endian.little).2) :=
  C5_subview_shape (fun e => e) sliceMeasureWith tryIntoCtxU32
    [0, 0] 0xbeefbeef 0 Endian.little (by decide) (by decide)

/-- C6: Single-context invariant — `pwrite_with` equals the reference
definition written from the spec's words, in which the one context value given
to the call is used both to measure the buffer's length and as the context
passed to the conversion routine. -/
theorem C6_single_context {Buf Ctx I E Sub V : Type}
    (M : PwriteModel Buf Ctx I E Sub)
    (tic : V → Sub → Ctx → Except E Unit × Sub)
    (buf : Buf) (n : V) (offset : I) (ctx : Ctx) :
    pwrite_with M tic buf n offset ctx
      = writeWithExplicitContext M tic buf n offset ctx := rfl

/-- C7: Concrete little-endian scenario — writing the 32-bit integer
0xBEEFBEEF at offset 0 into 8 zero bytes under the little-endian context
succeeds; reading bytes [0..4) back under the same context yields 0xBEEFBEEF,
and bytes [4..8) are still zero. -/
theorem C7_le_scenario :
    pwrite_with_bytes (fun e => e) sliceMeasureWith tryIntoCtxU32
        (List.replicate 8 0) 0xbeefbeef 0 Endian.little
      = some (Except.ok (), [0xef, 0xbe, 0xef, 0xbe, 0, 0, 0, 0])
    ∧ preadWithU32 [0xef, 0xbe, 0xef, 0xbe, 0, 0, 0, 0] 0 Endian.little
        = some 0xbeefbeef
    ∧ List.drop 4 [0xef, 0xbe, 0xef, 0xbe, 0, 0, 0, 0] = List.replicate 4 (0 : Nat) :=
  ⟨rfl, by decide, rfl⟩

/-- C8: Implicit frame property — for both `pwrite_with` and `pwrite` on a byte
buffer, whatever the measuring function and the conversion routine do, any
completed call (success or failure) leaves the bytes strictly before the offset
unchanged, because the only mutable access granted is the sub-view
`buf[offset..]`. -/
theorem C8_frame_before_offset {Ctx E V : Type} (defaultCtx : Ctx)
    (fromErr : Error Nat → E) (measure_with : List Nat → Ctx → Nat)
    (tic : V → List Nat → Ctx → Except E Unit × List Nat)
    (buf : List Nat) (n : V) (offset : Nat) (ctx : Ctx) :
    (∀ res, pwrite_with_bytes fromErr measure_with tic buf n offset ctx = some res →
        res.2.take offset = buf.take offset)
    ∧ (∀ res, pwrite_bytes defaultCtx fromErr measure_with tic buf n offset = some res →
        res.2.take offset = buf.take offset) := by
  have main : ∀ (c : Ctx) res,
      pwrite_with_bytes fromErr measure_with tic buf n offset c = some res →
      res.2.take offset = buf.take offset := by
    intro c res hres
    unfold pwrite_with_bytes at hres
    by_cases hb : offset ≥ measure_with buf c
    · simp [hb] at hres
      rw [← hres]
    · by_cases hi : offset ≤ buf.length
      · simp [hb, sliceIndexFrom, hi, byteWriteBack] at hres
        rw [← hres]
        exact take_append_take buf _ offset hi
      · simp [hb, sliceIndexFrom, hi] at hres
  exact ⟨main ctx, main defaultCtx⟩

theorem C8_frame_witness :
    (List.take 1 [9, 0xef, 0xbe, 0xef, 0xbe, 0] : List Nat)
      = List.take 1 [9, 0, 0, 0, 0, 0] :=
  (C8_frame_before_offset Endian.little (fun e => e) sliceMeasureWith tryIntoCtxU32
      [9, 0, 0, 0, 0, 0] 0xbeefbeef 1 Endian.little).1
    (Except.ok (), [9, 0xef, 0xbe, 0xef, 0xbe, 0]) rfl

/-- C9: Implicit safety of the sub-view extraction — when the bounds check
passes and the measured length does not exceed the physically indexable length,
the range indexing `buf[offset..]` succeeds, so `pwrite_with` completes without
panicking (its panic branch, `none`, is unreachable). -/
theorem C9_no_panic {Ctx E V : Type} (fromErr : Error Nat → E)
    (measure_with : List Nat → Ctx → Nat)
    (tic : V → List Nat → Ctx → Except E Unit × List Nat)
    (buf : List Nat) (n : V) (offset : Nat) (ctx : Ctx)
    (hm : measure_with buf ctx ≤ buf.length)
    (ho : ¬ offset ≥ measure_with buf ctx) :
    (pwrite_with_bytes fromErr measure_with tic buf n offset ctx).isSome = true := by
  have hlt : offset < measure_with buf ctx := Nat.lt_of_not_le ho
  have h2 : offset ≤ buf.length := Nat.le_trans (Nat.le_of_lt hlt) hm
  unfold pwrite_with_bytes
  simp [ho, sliceIndexFrom, h2]

theorem C9_no_panic_witness :
    (pwrite_with_bytes (fun e => e) sliceMeasureWith tryIntoCtxU32
        [0, 0, 0] 0xbeefbeef 2 Endian.little).isSome = true :=
  C9_no_panic (fun e => e) sliceMeasureWith tryIntoCtxU32
    [0, 0, 0] 0xbeefbeef 2 Endian.little (by decide) (by decide)

/-- C10: Implicit partial-order edge case — when the offset is incomparable
with the measured length (`partial_cmp` returns `none`), Rust's `>=` evaluates
to false, so no Bad-offset error is raised and the conversion routine is
invoked on the sub-view exactly as for an in-bounds offset. -/
theorem C10_incomparable_offset {Buf Ctx I E Sub V : Type}
    (M : PwriteModel Buf Ctx I E Sub)
    (tic : V → Sub → Ctx → Except E Unit × Sub)
    (buf : Buf) (n : V) (offset : I) (ctx : Ctx)
    (h : M.pcmp offset (M.measure_with buf ctx) = none) :
    pge M.pcmp offset (M.measure_with buf ctx) = false
    ∧ pwrite_with M tic buf n offset ctx
        = ((tic n (M.index_from buf offset) ctx).1,
           M.write_back buf offset (tic n (M.index_from buf offset) ctx).2) := by
  have hge : pge M.pcmp offset (M.measure_with buf ctx) = false := by
    unfold pge
    rw [h]
  refine ⟨hge, ?_⟩
  unfold pwrite_with
  simp [hge]

theorem C10_incomparable_witness :
    pwrite_with pairModel
        (fun (v : Nat) (d : List Nat) (_ : Unit) => (Except.ok (), v :: d.drop 1))
        [5, 6] 7 (1, 1) ()
      = (Except.ok (), [5, 7]) :=
  (C10_incomparable_offset pairModel
      (fun (v : Nat) (d : List Nat) (_ : Unit) => (Except.ok (), v :: d.drop 1))
      [5, 6] 7 (1, 1) () (by decide)).2

end Scroll
